import Mathlib

/-!
Verification of the million_grids real-time grid server against its design
specification.  The definitions below are a shallow embedding of the
repository's code:

* the grid state store (`GridState` in `server/internal/ws`, color version):
  `GetCell`, `SetCell`, `ToggleCell`, `LoadFromDB`, `GetActiveCells`;
* the WebSocket hub (`Hub.Run` register / unregister / broadcast cases);
* the snapshot handshake (`handleWebSocket` + `SendInitialState`);
* the browser client's message handler and reconnection logic
  (`useGridWebSocket`).

Go's `int` is modelled as `Int`, strings as `String`, the cell matrix as a
function from coordinates to cell states, and the concurrent hub/session
machinery as explicit state passing over small labelled steps.
-/

namespace MillionGrids

/-- GridSize defines the dimensions of the grid (1000x1000). -/
def GridSize : Int := 1000

/-- CellState holds the state of a single cell (active status and color). -/
structure CellState where
  active : Bool
  color : String
deriving DecidableEq

/-- The cell matrix of `GridState`: state of the cell at each coordinate. -/
def Grid := Int → Int → CellState

/-- The bounds check `x >= 0 && x < GridSize && y >= 0 && y < GridSize`
performed by every store operation. -/
def InBounds (x y : Int) : Prop :=
  0 ≤ x ∧ x < GridSize ∧ 0 ≤ y ∧ y < GridSize

instance instDecidableInBounds (x y : Int) : Decidable (InBounds x y) := by
  unfold InBounds; infer_instance

/-- The grid right after `Initialize`: all cells inactive with white color. -/
def initGrid : Grid := fun _ _ => ⟨false, "#FFFFFF"⟩

/-- A database pixel row (`db.Pixel`), as used by `LoadFromDB` and the
toggle handler: coordinates, active flag and hex color. -/
structure Pixel where
  x : Int
  y : Int
  active : Bool
  color : String
deriving DecidableEq

/-- One iteration of the `LoadFromDB` loop: an in-range pixel is written to
the grid, with an empty color replaced by white; out-of-range pixels are
skipped. -/
def loadPixel (g : Grid) (p : Pixel) : Grid :=
  if InBounds p.x p.y then
    fun a b =>
      if a = p.x ∧ b = p.y then
        ⟨p.active, if p.color = "" then "#FFFFFF" else p.color⟩
      else g a b
  else g

/-- LoadFromDB populates the grid from database pixels. -/
def LoadFromDB (g : Grid) (pixels : List Pixel) : Grid :=
  pixels.foldl loadPixel g

/-- GetCell returns the cell state at the given coordinates; out-of-range
coordinates give the canonical inactive white state. -/
def GetCell (g : Grid) (x y : Int) : CellState :=
  if InBounds x y then g x y else ⟨false, "#FFFFFF"⟩

/-- SetCell updates the cell state at the given coordinates; out-of-range
coordinates are silently ignored. -/
def SetCell (g : Grid) (x y : Int) (active : Bool) (color : String) : Grid :=
  fun a b =>
    if InBounds x y ∧ a = x ∧ b = y then ⟨active, color⟩ else g a b

/-- ToggleCell toggles the cell with a color and returns the new state
together with the updated grid (the Go method mutates the receiver and
returns the pair `(newActive, newColor)`). -/
def ToggleCell (g : Grid) (x y : Int) (color : String) :
    (Bool × String) × Grid :=
  if InBounds x y then
    let current := g x y
    let newActive := !current.active
    let newColor := if !newActive then "#FFFFFF" else color
    ((newActive, newColor),
      fun a b => if a = x ∧ b = y then ⟨newActive, newColor⟩ else g a b)
  else
    ((false, "#FFFFFF"), g)

/-- GetActiveCells returns all active cells with colors in the sparse
format, scanning x in the outer loop and y in the inner loop. -/
def GetActiveCells (g : Grid) : List Pixel :=
  (List.range 1000).flatMap fun x =>
    (List.range 1000).filterMap fun y =>
      if (g (Int.ofNat x) (Int.ofNat y)).active then
        some ⟨Int.ofNat x, Int.ofNat y, true, (g (Int.ofNat x) (Int.ofNat y)).color⟩
      else none

/-- Modelled from the spec: the enumerated 7-color palette accepted by the
server-side color validation `db.IsValidColor` (whose source file is not
under `src/`; only its caller `handleCellToggle` is).  The palette follows
the spec's "enumerated 7-color palette" and the client's `COLORS` list,
which is documented as "matching backend validation". -/
def ValidColors : List String :=
  ["#FF0000", "#FF8000", "#FFFF00", "#00FF00", "#00FFFF", "#0000FF", "#FF00FF"]

/-- Modelled from the spec: `db.IsValidColor` — membership in the
enumerated palette. -/
def IsValidColor (c : String) : Bool :=
  ValidColors.contains c

/-- The spec's cell invariant: inside the grid, an inactive cell is white
and an active cell's color belongs to the enumerated palette. -/
def Invariant (g : Grid) : Prop :=
  ∀ x y : Int, InBounds x y →
    ((g x y).active = false → (g x y).color = "#FFFFFF") ∧
    ((g x y).active = true → IsValidColor (g x y).color = true)

/-- Grid states reachable by arbitrary sequences of the store's operations,
with arbitrary arguments (the store itself performs no color validation). -/
inductive Reachable : Grid → Prop where
  | init : Reachable initGrid
  | load (g : Grid) (ps : List Pixel) : Reachable g → Reachable (LoadFromDB g ps)
  | set (g : Grid) (x y : Int) (a : Bool) (c : String) :
      Reachable g → Reachable (SetCell g x y a c)
  | toggle (g : Grid) (x y : Int) (c : String) :
      Reachable g → Reachable ((ToggleCell g x y c).2)

/-- Grid states reachable when every operation is fed validated colors, as
the session handler `handleCellToggle` guarantees for toggles: toggles use
palette colors, writes and loaded pixels are consistent with the invariant. -/
inductive ReachableV : Grid → Prop where
  | init : ReachableV initGrid
  | load (g : Grid) (ps : List Pixel)
      (hv : ∀ p ∈ ps, (p.active = true → IsValidColor p.color = true) ∧
        (p.active = false → p.color = "" ∨ p.color = "#FFFFFF")) :
      ReachableV g → ReachableV (LoadFromDB g ps)
  | set (g : Grid) (x y : Int) (a : Bool) (c : String)
      (ha : a = true → IsValidColor c = true)
      (hi : a = false → c = "#FFFFFF") :
      ReachableV g → ReachableV (SetCell g x y a c)
  | toggle (g : Grid) (x y : Int) (c : String)
      (hc : IsValidColor c = true) :
      ReachableV g → ReachableV ((ToggleCell g x y c).2)

/-- ActiveCell is the sparse wire format `{x, y, color}` used inside the
init message. -/
structure ActiveCell where
  x : Int
  y : Int
  color : String
deriving DecidableEq

/-- InitMessage is the snapshot sent to new clients:
`{type: "init", size, active}`. -/
structure InitMessage where
  type : String
  size : Int
  active : List ActiveCell
deriving DecidableEq

/-- The init message built by `SendInitialState`: the current active cells
of the grid, converted to the `ActiveCell` wire format. -/
def mkInitMessage (g : Grid) : InitMessage :=
  ⟨"init", GridSize, (GetActiveCells g).map fun p => ⟨p.x, p.y, p.color⟩⟩

/-- The client's Map key for a cell: the template string `x,y`. -/
def cellKey (x y : Int) : String :=
  toString x ++ "," ++ toString y

/-- A JavaScript `Map` with string keys and string values, embedded as an
association list in insertion order. -/
abbrev JsMap := List (String × String)

/-- `Map.prototype.set`: replaces the value of an existing key, otherwise
appends a new entry. -/
def mapSet (m : JsMap) (k v : String) : JsMap :=
  if m.any fun p => p.1 = k then
    m.map fun p => if p.1 = k then (k, v) else p
  else
    m ++ [(k, v)]

/-- `Map.prototype.get`, with `undefined` embedded as `none`. -/
def mapGet (m : JsMap) (k : String) : Option String :=
  (m.find? fun p => p.1 = k).map fun p => p.2

/-- The client's `init` branch of `ws.onmessage`: rebuild the replica map
from the snapshot's active list, defaulting a falsy (empty) color to
white (`cell.color || '#FFFFFF'`). -/
def applyInit (msg : InitMessage) : JsMap :=
  msg.active.foldl
    (fun m cell =>
      mapSet m (cellKey cell.x cell.y)
        (if cell.color = "" then "#FFFFFF" else cell.color))
    []

/-- Decimal digit parser used to invert `Nat.repr` on the coordinate
range; accumulator style. -/
def parseDigits : List Char → Nat → Option Nat
  | [], acc => some acc
  | c :: cs, acc =>
      if '0' ≤ c ∧ c ≤ '9' then parseDigits cs (acc * 10 + (c.toNat - 48))
      else none

/-- Server-to-client messages: the snapshot (`type:"init"`), the peer-count
message (`t:"c"`) and the cell-update delta (`t:"u"`). -/
inductive Msg where
  | initM (m : InitMessage)
  | countM (n : Nat)
  | updateM (x y : Int) (a : Bool) (color : String)
deriving DecidableEq

/-- Capacity of a session's buffered outbound channel (`make(chan []byte, 256)`). -/
def sendCap : Nat := 256

/-- The hub and session-queue state: the registry of client ids, each
client's outbound queue, the buffered broadcast channel, unregister
requests deferred by the fan-out loop, and the queues the hub has closed. -/
structure HubState where
  registry : List Nat
  queues : Nat → List Msg
  bchan : List Msg
  pending : List Nat
  closed : List Nat

/-- The empty hub, as built by `NewHub` (no clients, empty channels). -/
def hubStart : HubState :=
  ⟨[], fun _ => [], [], [], []⟩

/-- The hub loop's register case: an already-registered client is skipped
before the count broadcast; otherwise the client is added and the updated
peer count is pushed onto the broadcast channel (`BroadcastClientCount`). -/
def hubRegister (s : HubState) (c : Nat) : HubState :=
  if c ∈ s.registry then s
  else
    { s with
      registry := c :: s.registry
      bchan := s.bchan ++ [Msg.countM (c :: s.registry).length] }

/-- The hub loop's unregister case: a present client is removed and its
queue closed; `BroadcastClientCount` then runs unconditionally, pushing the
current peer count onto the broadcast channel even for an absent client. -/
def hubUnregister (s : HubState) (c : Nat) : HubState :=
  let s' :=
    if c ∈ s.registry then
      { s with registry := s.registry.erase c, closed := c :: s.closed }
    else s
  { s' with bchan := s'.bchan ++ [Msg.countM s'.registry.length] }

/-- The hub loop's broadcast fan-out over one message: every registered
client whose queue has room receives the message; a client with a full
queue is skipped by the `select`/`default` and an unregister request is
scheduled for it instead (`go func { h.unregister <- c }`). -/
def fanOutMsg (s : HubState) (m : Msg) : HubState :=
  { s with
    queues := fun c =>
      if c ∈ s.registry ∧ (s.queues c).length < sendCap then s.queues c ++ [m]
      else s.queues c
    pending := s.pending ++
      s.registry.filter fun c => decide (sendCap ≤ (s.queues c).length) }

/-- One hub-loop iteration of the broadcast case: take the next message
from the broadcast channel (if any) and fan it out. -/
def procBroadcast (s : HubState) : HubState :=
  match s.bchan with
  | [] => s
  | m :: rest => fanOutMsg { s with bchan := rest } m

/-- `SendInitialState` run by the connection handler: enqueue the snapshot
built from the grid directly onto the client's own outbound queue. -/
def sendInit (g : Grid) (s : HubState) (c : Nat) : HubState :=
  { s with
    queues := fun d =>
      if d = c then s.queues d ++ [Msg.initM (mkInitMessage g)] else s.queues d }

/-- Atomic events of the hub system: the hub loop processing a register or
unregister request, the hub loop delivering one broadcast-channel message,
and the connection handler's snapshot enqueue. -/
inductive HubAct where
  | register (c : Nat)
  | unregister (c : Nat)
  | deliver
  | enqueueInit (c : Nat)
deriving DecidableEq

/-- Interleaved execution step of the hub system. -/
def hubStep (g : Grid) (s : HubState) (a : HubAct) : HubState :=
  match a with
  | .register c => hubRegister s c
  | .unregister c => hubUnregister s c
  | .deliver => procBroadcast s
  | .enqueueInit c => sendInit g s c

/-- Run a schedule of hub-system events. -/
def hubRun (g : Grid) (s : HubState) (acts : List HubAct) : HubState :=
  acts.foldl (hubStep g) s

/-- Program order of `handleWebSocket` for client `c`: the hub processes
the registration before the handler's snapshot enqueue happens
(`hub.Register(client)` hands the client to the hub loop before
`client.SendInitialState()` runs). -/
def HandshakeOrdered (acts : List HubAct) (c : Nat) : Prop :=
  ∀ i : Fin acts.length, acts.get i = HubAct.enqueueInit c →
    ∃ k : Fin acts.length, k.val < i.val ∧ acts.get k = HubAct.register c

instance instDecidableHandshakeOrdered (acts : List HubAct) (c : Nat) :
    Decidable (HandshakeOrdered acts c) := by
  unfold HandshakeOrdered; infer_instance

/-- Reconnection state of the browser client: the attempt counter, the
connection flag, and whether a snapshot has been received (synchronized). -/
structure ClientState where
  attempts : Nat
  connected : Bool
  synced : Bool
deriving DecidableEq

/-- Events observed by the client hook: socket open, socket close, the
scheduled reconnect timer firing, and the three message kinds. -/
inductive ClientEvent where
  | openEv
  | closeEv
  | fireEv
  | initEv
  | updateEv
  | countEv
deriving DecidableEq

/-- `maxReconnectAttempts` from the client hook. -/
def maxReconnectAttempts : Nat := 10

/-- `baseReconnectDelay` (milliseconds) from the client hook. -/
def baseReconnectDelay : Nat := 1000

/-- One client transition, returning the new state and the reconnect delay
scheduled by this event (if any): `onopen` sets the connected flag and
resets the attempt counter; `onclose` schedules
`baseReconnectDelay * 2 ^ attempts` while the counter is below the
maximum; the timer callback increments the counter and reconnects; the
`init` message marks the replica synchronized. -/
def clientStep (s : ClientState) (e : ClientEvent) : ClientState × Option Nat :=
  match e with
  | .openEv => ({ s with connected := true, attempts := 0 }, none)
  | .closeEv =>
      if s.attempts < maxReconnectAttempts then
        ({ s with connected := false },
          some (baseReconnectDelay * 2 ^ s.attempts))
      else
        ({ s with connected := false }, none)
  | .fireEv => ({ s with attempts := s.attempts + 1 }, none)
  | .initEv => ({ s with synced := true }, none)
  | .updateEv => (s, none)
  | .countEv => (s, none)

/-- Initial client hook state. -/
def clientStart : ClientState := ⟨0, false, false⟩

/-- Run the client over a list of events, collecting the scheduled
reconnect delays in order. -/
def clientRun : ClientState → List ClientEvent → ClientState × List Nat
  | s, [] => (s, [])
  | s, e :: es =>
      let r := clientStep s e
      let rest := clientRun r.1 es
      (rest.1, r.2.toList ++ rest.2)

/-- A run of `k` consecutive failure cycles: each cycle is a socket close
followed by the scheduled reconnect timer firing. -/
def failCycles (k : Nat) : List ClientEvent :=
  (List.replicate k [ClientEvent.closeEv, ClientEvent.fireEv]).flatten

/-- Specification of an in-range toggle (claim C1): the active flag flips;
an activated cell takes the requested color, a deactivated cell resets to
white, and the returned pair is the cell's new stored state. -/
def ToggleSpec (g : Grid) (x y : Int) (c : String) : Prop :=
  (ToggleCell g x y c).1.1 = !(g x y).active ∧
  ((ToggleCell g x y c).1.1 = true → (ToggleCell g x y c).1.2 = c) ∧
  ((ToggleCell g x y c).1.1 = false → (ToggleCell g x y c).1.2 = "#FFFFFF") ∧
  (ToggleCell g x y c).2 x y =
    ⟨(ToggleCell g x y c).1.1, (ToggleCell g x y c).1.2⟩

/-- Specification of the out-of-range behaviour (claim C2): `GetCell`
returns the canonical inactive state and `SetCell` / `ToggleCell` leave
the grid untouched. -/
def OutOfRangeSpec (g : Grid) (x y : Int) (a : Bool) (col c : String) : Prop :=
  GetCell g x y = ⟨false, "#FFFFFF"⟩ ∧
  SetCell g x y a col = g ∧
  ToggleCell g x y c = ((false, "#FFFFFF"), g)

/-- The grid left by toggling the same cell twice with the same inputs
(claim C7). -/
def doubleToggle (g : Grid) (x y : Int) (c : String) : Grid :=
  (ToggleCell (ToggleCell g x y c).2 x y c).2

/-- A concrete hub state with two registered sessions, session 1 having a
saturated outbound queue. -/
def hubDemo : HubState :=
  ⟨[0, 1], fun d => if d = 1 then List.replicate sendCap (Msg.countM 0) else [],
    [], [], []⟩

/-- A concrete hub state with the single registered session 7. -/
def hubSolo : HubState :=
  ⟨[7], fun _ => [], [], [], []⟩

/-- The written cell after an in-range toggle. -/
theorem toggle_self (g : Grid) (x y : Int) (c : String) (h : InBounds x y) :
    (ToggleCell g x y c).2 x y =
      ⟨!(g x y).active, if (g x y).active then "#FFFFFF" else c⟩ := by
  unfold ToggleCell
  simp only [if_pos h]
  cases hA : (g x y).active <;> simp

/-- Cells other than the toggled one are untouched. -/
theorem toggle_frame (g : Grid) (x y : Int) (c : String) (a b : Int)
    (hne : ¬(a = x ∧ b = y)) :
    (ToggleCell g x y c).2 a b = g a b := by
  unfold ToggleCell
  by_cases h : InBounds x y <;> simp [h, hne]

/-- Cells other than the written one are untouched by `SetCell`. -/
theorem setCell_frame (g : Grid) (x y : Int) (av : Bool) (c : String)
    (a b : Int) (hne : ¬(a = x ∧ b = y)) :
    SetCell g x y av c a b = g a b := by
  unfold SetCell
  simp [hne]

/-- Claim C1: for every in-range coordinate pair and every color,
`ToggleCell` flips the cell's active flag; when the resulting flag is true
the cell's color becomes the requested color, when it is false the color
becomes the canonical white, and the returned pair equals the cell's new
stored state. -/
theorem c1_toggleCell_correct (g : Grid) (x y : Int) (c : String)
    (h : InBounds x y) : ToggleSpec g x y c := by
  unfold ToggleSpec ToggleCell
  simp only [if_pos h]
  cases hA : (g x y).active <;> simp [hA]

/-- Witness for claim C1 at a concrete in-range cell of the initial grid. -/
theorem c1_toggleCell_correct_witness :
    InBounds 1 2 ∧ ToggleSpec initGrid 1 2 "#FF0000" :=
  ⟨by decide, c1_toggleCell_correct initGrid 1 2 "#FF0000" (by decide)⟩

/-- Claim C2: for every out-of-range coordinate pair, `GetCell` returns the
canonical inactive white state, `SetCell` leaves the grid unchanged, and
`ToggleCell` returns `(false, "#FFFFFF")` without mutating the grid. -/
theorem c2_outOfRange_noop (g : Grid) (x y : Int) (a : Bool) (col c : String)
    (h : ¬ InBounds x y) : OutOfRangeSpec g x y a col c := by
  refine ⟨?_, ?_, ?_⟩
  · simp [GetCell, h]
  · funext p q
    simp [SetCell, h]
  · simp [ToggleCell, h]

/-- Witness for claim C2 at the concrete out-of-range pair `(-1, 1000)`. -/
theorem c2_outOfRange_noop_witness :
    ¬ InBounds (-1) 1000 ∧ OutOfRangeSpec initGrid (-1) 1000 true "#FF0000" "#0000FF" :=
  ⟨by decide, c2_outOfRange_noop initGrid (-1) 1000 true "#FF0000" "#0000FF" (by decide)⟩

/-- Counterexample to claim C7 as stated: toggling the active green cell
`(0,0)` twice with red does not restore the original color — toggling off
resets the color to white, so toggling back on stores the currently
requested color, not the one the cell had before. -/
theorem c7_counterexample :
    doubleToggle (SetCell initGrid 0 0 true "#00FF00") 0 0 "#FF0000" 0 0 ≠
      SetCell initGrid 0 0 true "#00FF00" 0 0 := by
  decide

/-- Claim C7, amended: two consecutive toggles with the same inputs always
restore the cell's original active flag; they restore the full original
state exactly when the starting color is canonical for its flag — white
when the cell was inactive, and the requested color `c` when it was
active (both directions of the equivalence). -/
theorem c7_double_toggle (g : Grid) (x y : Int) (c : String)
    (h : InBounds x y) :
    (doubleToggle g x y c x y).active = (g x y).active ∧
    (doubleToggle g x y c x y = g x y ↔
      (((g x y).active = false → (g x y).color = "#FFFFFF") ∧
        ((g x y).active = true → (g x y).color = c))) := by
  have h1 := toggle_self g x y c h
  have h2 := toggle_self (ToggleCell g x y c).2 x y c h
  unfold doubleToggle
  rw [h2, h1]
  rcases hgxy : g x y with ⟨ca, cc⟩
  cases ca <;> simp [CellState.mk.injEq, eq_comm]

/-- Witness for the amended claim C7 on an inactive white cell. -/
theorem c7_double_toggle_witness :
    InBounds 3 4 ∧
    ((doubleToggle initGrid 3 4 "#FF0000" 3 4).active = (initGrid 3 4).active ∧
    (doubleToggle initGrid 3 4 "#FF0000" 3 4 = initGrid 3 4 ↔
      (((initGrid 3 4).active = false → (initGrid 3 4).color = "#FFFFFF") ∧
        ((initGrid 3 4).active = true → (initGrid 3 4).color = "#FF0000")))) :=
  ⟨by decide, c7_double_toggle initGrid 3 4 "#FF0000" (by decide)⟩

/-- Claim C10: an in-range `SetCell` or `ToggleCell` modifies at most the
addressed cell; every other cell keeps exactly its previous state. -/
theorem c10_frame (g : Grid) (x y : Int) (av : Bool) (col c : String)
    (a b : Int) (_h : InBounds x y) (hne : ¬(a = x ∧ b = y)) :
    SetCell g x y av col a b = g a b ∧
    (ToggleCell g x y c).2 a b = g a b :=
  ⟨setCell_frame g x y av col a b hne, toggle_frame g x y c a b hne⟩

/-- Witness for claim C10: toggling `(0,0)` does not touch `(5,7)`. -/
theorem c10_frame_witness :
    InBounds 0 0 ∧ ¬((5 : Int) = 0 ∧ (7 : Int) = 0) ∧
    (SetCell initGrid 0 0 true "#FF0000" 5 7 = initGrid 5 7 ∧
      (ToggleCell initGrid 0 0 "#0000FF").2 5 7 = initGrid 5 7) :=
  ⟨by decide, by decide,
    c10_frame initGrid 0 0 true "#FF0000" "#0000FF" 5 7 (by decide) (by decide)⟩

/-- The all-inactive initial grid satisfies the invariant. -/
theorem invariant_initGrid : Invariant initGrid := by
  intro x y _
  refine ⟨fun _ => rfl, fun h => ?_⟩
  simp [initGrid] at h

/-- `SetCell` preserves the invariant when its arguments respect it. -/
theorem invariant_setCell (g : Grid) (x y : Int) (a : Bool) (c : String)
    (hInv : Invariant g)
    (ha : a = true → IsValidColor c = true)
    (hi : a = false → c = "#FFFFFF") :
    Invariant (SetCell g x y a c) := by
  intro p q hpq
  unfold SetCell
  by_cases hcase : InBounds x y ∧ p = x ∧ q = y
  · simp only [if_pos hcase]
    exact ⟨hi, ha⟩
  · simp only [if_neg hcase]
    exact hInv p q hpq

/-- `ToggleCell` preserves the invariant when the requested color is a
palette color. -/
theorem invariant_toggle (g : Grid) (x y : Int) (c : String)
    (hInv : Invariant g) (hc : IsValidColor c = true) :
    Invariant ((ToggleCell g x y c).2) := by
  intro p q hpq
  by_cases hxy : InBounds x y
  · by_cases hpt : p = x ∧ q = y
    · obtain ⟨rfl, rfl⟩ := hpt
      rw [toggle_self g p q c hxy]
      cases hA : (g p q).active <;> simp [hA]
      exact hc
    · rw [toggle_frame g x y c p q hpt]
      exact hInv p q hpq
  · unfold ToggleCell
    simp only [if_neg hxy]
    exact hInv p q hpq

/-- One `LoadFromDB` iteration preserves the invariant for a pixel whose
color data is consistent with it. -/
theorem invariant_loadPixel (g : Grid) (p : Pixel) (hInv : Invariant g)
    (hv : (p.active = true → IsValidColor p.color = true) ∧
      (p.active = false → p.color = "" ∨ p.color = "#FFFFFF")) :
    Invariant (loadPixel g p) := by
  intro a b hab
  unfold loadPixel
  by_cases hin : InBounds p.x p.y
  · simp only [if_pos hin]
    by_cases hpt : a = p.x ∧ b = p.y
    · simp only [if_pos hpt]
      refine ⟨fun hF => ?_, fun hT => ?_⟩
      · rcases hv.2 hF with h | h <;> simp [h]
      · have hvc := hv.1 hT
        have hne : p.color ≠ "" := by
          intro he
          rw [he] at hvc
          exact absurd hvc (by decide)
        simpa [hne] using hvc
    · simp only [if_neg hpt]
      exact hInv a b hab
  · simp only [if_neg hin]
    exact hInv a b hab

/-- `LoadFromDB` preserves the invariant for consistent pixel lists. -/
theorem invariant_load (g : Grid) (ps : List Pixel) (hInv : Invariant g)
    (hv : ∀ p ∈ ps, (p.active = true → IsValidColor p.color = true) ∧
      (p.active = false → p.color = "" ∨ p.color = "#FFFFFF")) :
    Invariant (LoadFromDB g ps) := by
  induction ps generalizing g with
  | nil => exact hInv
  | cons p ps ih =>
      exact ih (loadPixel g p)
        (invariant_loadPixel g p hInv (hv p (List.mem_cons_self p ps)))
        fun q hq => hv q (List.mem_cons_of_mem p hq)

/-- Counterexample to claim C3 as stated: the store itself validates no
colors, so a single `SetCell` with a non-palette color reaches a state in
which an active cell's color is outside the palette. -/
theorem c3_counterexample :
    Reachable (SetCell initGrid 0 0 true "#123456") ∧
    ¬ Invariant (SetCell initGrid 0 0 true "#123456") := by
  refine ⟨Reachable.set initGrid 0 0 true "#123456" Reachable.init, fun hInv => ?_⟩
  have hcell : SetCell initGrid 0 0 true "#123456" 0 0 = ⟨true, "#123456"⟩ := by
    decide
  have h := (hInv 0 0 (by decide)).2
  rw [hcell] at h
  exact absurd (h rfl) (by decide)

/-- Claim C3, amended: every grid state reachable through the store's
operations with validated arguments — toggles with palette colors (as the
session handler guarantees), writes and loaded pixels consistent with the
invariant — has inactive cells white and active cells colored from the
palette; the raw store operations themselves do not enforce this. -/
theorem c3_invariant_validated (g : Grid) (h : ReachableV g) : Invariant g := by
  induction h with
  | init => exact invariant_initGrid
  | load g ps hv _ ih => exact invariant_load g ps ih hv
  | set g x y a c ha hi _ ih => exact invariant_setCell g x y a c ih ha hi
  | toggle g x y c hc _ ih => exact invariant_toggle g x y c ih hc

/-- Witness for the amended claim C3: the state after one validated toggle
is reachable and satisfies the invariant. -/
theorem c3_invariant_validated_witness :
    ReachableV ((ToggleCell initGrid 5 5 "#00FF00").2) ∧
    Invariant ((ToggleCell initGrid 5 5 "#00FF00").2) :=
  ⟨ReachableV.toggle initGrid 5 5 "#00FF00" (by decide) ReachableV.init,
    c3_invariant_validated _
      (ReachableV.toggle initGrid 5 5 "#00FF00" (by decide) ReachableV.init)⟩

/-- Claim C6: a broadcast fan-out enqueues the message exactly once to
every session registered at fan-out time whose queue has room; a session
with a saturated queue receives nothing and is scheduled for eviction
through the deferred unregister path while delivery to every other session
is unaffected; the registry is not modified inside the fan-out; and a
session not registered at fan-out time — in particular one registered
afterwards — never receives that past message. -/
theorem c6_fanout_exactly_once (s : HubState) (m : Msg) (c : Nat) :
    (c ∈ s.registry → (s.queues c).length < sendCap →
      (fanOutMsg s m).queues c = s.queues c ++ [m]) ∧
    (c ∈ s.registry → sendCap ≤ (s.queues c).length →
      (fanOutMsg s m).queues c = s.queues c ∧ c ∈ (fanOutMsg s m).pending) ∧
    (c ∉ s.registry → (fanOutMsg s m).queues c = s.queues c) ∧
    (fanOutMsg s m).registry = s.registry ∧
    (c ∉ s.registry → (hubRegister (fanOutMsg s m) c).queues c = s.queues c) := by
  refine ⟨fun hc hlen => ?_, fun hc hlen => ⟨?_, ?_⟩, fun hc => ?_, rfl, fun hc => ?_⟩
  · simp [fanOutMsg, hc, hlen]
  · simp [fanOutMsg, Nat.not_lt_of_le hlen]
  · simp only [fanOutMsg, List.mem_append, List.mem_filter]
    exact Or.inr ⟨hc, by simpa using hlen⟩
  · simp [fanOutMsg, hc]
  · have hreg : (fanOutMsg s m).registry = s.registry := rfl
    unfold hubRegister
    rw [hreg]
    simp only [if_neg hc]
    simp [fanOutMsg, hc]

set_option maxRecDepth 100000 in
/-- Witness for claim C6 on a concrete hub: session 0 (room in its queue)
receives the message exactly once, saturated session 1 receives nothing
and is scheduled for eviction, the registry is untouched, and session 2,
registered only after the fan-out, never sees the message. -/
theorem c6_fanout_exactly_once_witness :
    ((0 : Nat) ∈ hubDemo.registry ∧ (hubDemo.queues 0).length < sendCap ∧
      (fanOutMsg hubDemo (Msg.countM 9)).queues 0 =
        hubDemo.queues 0 ++ [Msg.countM 9]) ∧
    ((1 : Nat) ∈ hubDemo.registry ∧ sendCap ≤ (hubDemo.queues 1).length ∧
      (fanOutMsg hubDemo (Msg.countM 9)).queues 1 = hubDemo.queues 1 ∧
      1 ∈ (fanOutMsg hubDemo (Msg.countM 9)).pending) ∧
    ((2 : Nat) ∉ hubDemo.registry ∧
      (fanOutMsg hubDemo (Msg.countM 9)).queues 2 = hubDemo.queues 2 ∧
      (fanOutMsg hubDemo (Msg.countM 9)).registry = hubDemo.registry ∧
      (hubRegister (fanOutMsg hubDemo (Msg.countM 9)) 2).queues 2 =
        hubDemo.queues 2) := by
  refine ⟨⟨by decide, by decide, ?_⟩, ⟨by decide, by decide, ?_, ?_⟩,
    ⟨by decide, ?_, ?_, ?_⟩⟩
  · exact (c6_fanout_exactly_once hubDemo (Msg.countM 9) 0).1 (by decide) (by decide)
  · exact ((c6_fanout_exactly_once hubDemo (Msg.countM 9) 1).2.1 (by decide)
      (by decide)).1
  · exact ((c6_fanout_exactly_once hubDemo (Msg.countM 9) 1).2.1 (by decide)
      (by decide)).2
  · exact (c6_fanout_exactly_once hubDemo (Msg.countM 9) 2).2.2.1 (by decide)
  · exact (c6_fanout_exactly_once hubDemo (Msg.countM 9) 2).2.2.2.1
  · exact (c6_fanout_exactly_once hubDemo (Msg.countM 9) 2).2.2.2.2 (by decide)

/-- Counterexample to claim C8 as stated: unregistering a session that was
never registered still triggers a peer-count broadcast — `Hub.Run` calls
`BroadcastClientCount` unconditionally after the unregister case, so the
broadcast channel receives a count message even though no transition
happened. -/
theorem c8_counterexample :
    (hubUnregister hubStart 5).registry = hubStart.registry ∧
    (hubUnregister hubStart 5).closed = hubStart.closed ∧
    hubStart.bchan = [] ∧
    (hubUnregister hubStart 5).bchan = [Msg.countM 0] := by
  refine ⟨rfl, rfl, rfl, rfl⟩

/-- Claim C8, amended: registering an already-present session is a
complete no-op (registry unchanged, nothing broadcast); registering a new
session adds it and broadcasts the updated count; unregistering a present
session removes it, closes its queue and broadcasts the updated count; but
unregistering an absent session, while leaving the registry and all queues
unchanged and closing nothing, still broadcasts the (unchanged) peer
count — the count broadcast on the unregister path is unconditional. -/
theorem c8_membership_idempotent (s : HubState) (c : Nat) :
    (c ∈ s.registry → hubRegister s c = s) ∧
    (c ∉ s.registry →
      (hubRegister s c).registry = c :: s.registry ∧
      (hubRegister s c).bchan = s.bchan ++ [Msg.countM (c :: s.registry).length]) ∧
    (c ∈ s.registry →
      (hubUnregister s c).registry = s.registry.erase c ∧
      (hubUnregister s c).closed = c :: s.closed ∧
      (hubUnregister s c).bchan =
        s.bchan ++ [Msg.countM (s.registry.erase c).length]) ∧
    (c ∉ s.registry →
      (hubUnregister s c).registry = s.registry ∧
      (hubUnregister s c).closed = s.closed ∧
      (hubUnregister s c).queues = s.queues ∧
      (hubUnregister s c).bchan = s.bchan ++ [Msg.countM s.registry.length]) := by
  refine ⟨fun hc => ?_, fun hc => ?_, fun hc => ?_, fun hc => ?_⟩
  · simp [hubRegister, hc]
  · simp [hubRegister, hc]
  · simp [hubUnregister, hc]
  · simp [hubUnregister, hc]

/-- Witness for the amended claim C8 on a concrete hub with session 7
registered: re-registering 7 is a no-op, unregistering 7 removes it and
broadcasts, and unregistering the absent session 9 leaves everything
unchanged except the unconditional count broadcast. -/
theorem c8_membership_idempotent_witness :
    ((7 : Nat) ∈ hubSolo.registry ∧ hubRegister hubSolo 7 = hubSolo) ∧
    ((7 : Nat) ∈ hubSolo.registry ∧
      (hubUnregister hubSolo 7).registry = hubSolo.registry.erase 7 ∧
      (hubUnregister hubSolo 7).closed = 7 :: hubSolo.closed ∧
      (hubUnregister hubSolo 7).bchan =
        hubSolo.bchan ++ [Msg.countM (hubSolo.registry.erase 7).length]) ∧
    ((9 : Nat) ∉ hubSolo.registry ∧
      (hubUnregister hubSolo 9).registry = hubSolo.registry ∧
      (hubUnregister hubSolo 9).closed = hubSolo.closed ∧
      (hubUnregister hubSolo 9).queues = hubSolo.queues ∧
      (hubUnregister hubSolo 9).bchan =
        hubSolo.bchan ++ [Msg.countM hubSolo.registry.length]) := by
  refine ⟨⟨by decide, ?_⟩, ⟨by decide, ?_⟩, ⟨by decide, ?_⟩⟩
  · exact (c8_membership_idempotent hubSolo 7).1 (by decide)
  · exact (c8_membership_idempotent hubSolo 7).2.2.1 (by decide)
  · exact (c8_membership_idempotent hubSolo 9).2.2.2 (by decide)

/-- Claim C5 fails on the code: in the legal interleaving where the hub
loop processes the new session's registration and then delivers the
resulting peer-count broadcast before the connection handler enqueues the
snapshot, the first item ever placed on the new session's outbound queue
is the peer-count message, not the `init` snapshot.  The schedule respects
the handler's program order (`hub.Register` is processed before
`SendInitialState` enqueues). -/
theorem c5_count_before_init :
    HandshakeOrdered
      [HubAct.register 0, HubAct.deliver, HubAct.enqueueInit 0] 0 ∧
    (hubRun initGrid hubStart
        [HubAct.register 0, HubAct.deliver, HubAct.enqueueInit 0]).queues 0 =
      [Msg.countM 1, Msg.initM (mkInitMessage initGrid)] ∧
    Msg.countM 1 ≠ Msg.initM (mkInitMessage initGrid) := by
  refine ⟨by decide, ?_, by simp⟩
  rfl

/-- Delays scheduled by `k` consecutive failure cycles starting from an
arbitrary attempt-counter value `a`: one delay `base * 2 ^ i` for each
counter value `i` from `a` until the maximum cuts scheduling off, while
the counter itself keeps counting the fired timers. -/
theorem clientRun_failCycles (k : Nat) :
    ∀ (a : Nat) (cn sy : Bool),
      (clientRun ⟨a, cn, sy⟩ (failCycles k)).2 =
        (List.range' a (min k (maxReconnectAttempts - a))).map
          (fun i => baseReconnectDelay * 2 ^ i) ∧
      (clientRun ⟨a, cn, sy⟩ (failCycles k)).1.attempts = a + k := by
  induction k with
  | zero => intro a cn sy; simp [failCycles, clientRun]
  | succ k ih =>
      intro a cn sy
      have hfc : failCycles (k + 1) =
          ClientEvent.closeEv :: ClientEvent.fireEv :: failCycles k := by
        simp [failCycles, List.replicate_succ]
      rw [hfc]
      by_cases ha : a < maxReconnectAttempts
      · have hmin : min (k + 1) (maxReconnectAttempts - a) =
            min k (maxReconnectAttempts - (a + 1)) + 1 := by
          unfold maxReconnectAttempts at ha ⊢
          omega
        simp only [clientRun, clientStep, if_pos ha]
        obtain ⟨ih1, ih2⟩ := ih (a + 1) false sy
        refine ⟨?_, by simpa [Nat.add_assoc, Nat.add_comm 1 k] using ih2⟩
        rw [ih1, hmin, List.range'_succ]
        simp
      · have hmin : min (k + 1) (maxReconnectAttempts - a) = 0 := by
          unfold maxReconnectAttempts at ha ⊢
          omega
        have hmin' : min k (maxReconnectAttempts - (a + 1)) = 0 := by
          unfold maxReconnectAttempts at ha ⊢
          omega
        simp only [clientRun, clientStep, if_neg ha]
        obtain ⟨ih1, ih2⟩ := ih (a + 1) false sy
        refine ⟨?_, by simpa [Nat.add_assoc, Nat.add_comm 1 k] using ih2⟩
        rw [ih1, hmin, hmin']
        simp

/-- Counterexample to claim C9 as stated: in a run with no snapshot
(`init`) message at all, the attempt counter is nevertheless reset to zero
— `ws.onopen` resets it as soon as the socket opens — and the next
scheduled backoff delay restarts at the base delay instead of continuing
the exponential progression over consecutive dropped sessions. -/
theorem c9_counterexample :
    (clientRun clientStart
      [ClientEvent.closeEv, ClientEvent.fireEv]).1.attempts = 1 ∧
    (clientRun clientStart
      [ClientEvent.closeEv, ClientEvent.fireEv,
        ClientEvent.openEv]).1.attempts = 0 ∧
    ClientEvent.initEv ∉
      [ClientEvent.closeEv, ClientEvent.fireEv, ClientEvent.openEv] ∧
    (clientRun clientStart
      [ClientEvent.closeEv, ClientEvent.fireEv, ClientEvent.openEv,
        ClientEvent.closeEv]).2 = [1000, 1000] := by
  decide

/-- Claim C9, amended: in a run of consecutive failures the scheduled
delays follow `baseReconnectDelay * 2 ^ i` for the successive counter
values `i = 0, 1, …`, scheduling stops once the counter reaches the
maximum of 10; the counter is incremented exactly by the reconnect timer
fired after a close and by no message; but it is reset to zero already by
`onopen`, i.e. when the socket opens — before the snapshot is received —
not on reaching the synchronized state. -/
theorem c9_backoff (k : Nat) (s : ClientState) (cn sy : Bool) :
    ((clientRun clientStart (failCycles k)).2 =
      (List.range (min k maxReconnectAttempts)).map
        (fun i => baseReconnectDelay * 2 ^ i)) ∧
    ((clientStep ⟨maxReconnectAttempts, cn, sy⟩ ClientEvent.closeEv).2 = none) ∧
    ((clientStep s ClientEvent.openEv).1.attempts = 0) ∧
    ((clientStep s ClientEvent.fireEv).1.attempts = s.attempts + 1) ∧
    ((clientStep s ClientEvent.closeEv).1.attempts = s.attempts) ∧
    ((clientStep s ClientEvent.initEv).1.attempts = s.attempts) ∧
    ((clientStep s ClientEvent.updateEv).1.attempts = s.attempts) ∧
    ((clientStep s ClientEvent.countEv).1.attempts = s.attempts) := by
  refine ⟨?_, by simp [clientStep, maxReconnectAttempts], rfl, rfl, ?_, rfl, rfl, rfl⟩
  · have h := (clientRun_failCycles k 0 false false).1
    simpa [clientStart, List.range_eq_range'] using h
  · simp only [clientStep]
    by_cases h : s.attempts < maxReconnectAttempts <;> simp [h]

set_option maxRecDepth 100000 in
set_option maxHeartbeats 1000000 in
/-- Decimal parsing inverts the decimal printer on the coordinate range. -/
theorem parseDigits_repr :
    ∀ n : Nat, n < 1000 → parseDigits (Nat.repr n).data 0 = some n := by
  decide

set_option maxRecDepth 100000 in
set_option maxHeartbeats 1000000 in
/-- Printed coordinates contain no comma, so the comma of a replica key is
exactly its separator. -/
theorem comma_not_mem_repr :
    ∀ n : Nat, n < 1000 → ',' ∉ (Nat.repr n).data := by
  decide

/-- The decimal printer is injective on the coordinate range. -/
theorem repr_data_inj (a b : Nat) (ha : a < 1000) (hb : b < 1000)
    (h : (Nat.repr a).data = (Nat.repr b).data) : a = b := by
  have h1 := parseDigits_repr a ha
  have h2 := parseDigits_repr b hb
  rw [h] at h1
  exact Option.some.inj (h1.symm.trans h2)

/-- A character list splits uniquely at a separator that is absent from
both prefixes. -/
theorem append_comma_inj :
    ∀ (l1 m1 l2 m2 : List Char), ',' ∉ l1 → ',' ∉ m1 →
      l1 ++ ',' :: l2 = m1 ++ ',' :: m2 → l1 = m1 ∧ l2 = m2 := by
  intro l1
  induction l1 with
  | nil =>
      intro m1 l2 m2 _ hm1 h
      cases m1 with
      | nil => simpa using h
      | cons c m1 =>
          simp only [List.nil_append, List.cons_append, List.cons.injEq] at h
          exact absurd (by rw [h.1]; exact List.mem_cons_self c m1) hm1
  | cons c l1 ih =>
      intro m1 l2 m2 hl1 hm1 h
      cases m1 with
      | nil =>
          simp only [List.cons_append, List.nil_append, List.cons.injEq] at h
          exact absurd (by rw [← h.1]; exact List.mem_cons_self c l1) hl1
      | cons d m1 =>
          simp only [List.cons_append, List.cons.injEq] at h
          obtain ⟨rfl, htail⟩ := h
          have hrec := ih m1 l2 m2
            (fun hx => hl1 (List.mem_cons_of_mem _ hx))
            (fun hx => hm1 (List.mem_cons_of_mem _ hx)) htail
          exact ⟨by rw [hrec.1], hrec.2⟩

/-- The client's `x,y` template-string key is injective on in-range
coordinates. -/
theorem cellKey_inj (a b c d : Nat) (ha : a < 1000) (hb : b < 1000)
    (hc : c < 1000) (hd : d < 1000)
    (h : cellKey (Int.ofNat a) (Int.ofNat b) = cellKey (Int.ofNat c) (Int.ofNat d)) :
    a = c ∧ b = d := by
  have hdata := congrArg String.data h
  simp only [cellKey, String.data_append] at hdata
  have hdata2 : (Nat.repr a).data ++ ',' :: (Nat.repr b).data
      = (Nat.repr c).data ++ ',' :: (Nat.repr d).data := by
    have h3 : (Nat.repr a).data ++ [','] ++ (Nat.repr b).data
        = (Nat.repr c).data ++ [','] ++ (Nat.repr d).data := hdata
    simpa [List.append_assoc] using h3
  obtain ⟨h1, h2⟩ := append_comma_inj _ _ _ _
    (comma_not_mem_repr a ha) (comma_not_mem_repr c hc) hdata2
  exact ⟨repr_data_inj a c ha hc h1, repr_data_inj b d hb hd h2⟩

/-- Natural coordinates below the grid dimension are in bounds. -/
theorem inBounds_ofNat (a b : Nat) (ha : a < 1000) (hb : b < 1000) :
    InBounds (Int.ofNat a) (Int.ofNat b) := by
  unfold InBounds GridSize
  simp only [Int.ofNat_eq_natCast]
  omega

/-- In-range integer coordinates are natural numbers below the dimension. -/
theorem inBounds_destruct (x y : Int) (h : InBounds x y) :
    ∃ a b : Nat, a < 1000 ∧ b < 1000 ∧ x = Int.ofNat a ∧ y = Int.ofNat b := by
  unfold InBounds GridSize at h
  refine ⟨x.toNat, y.toNat, by omega, by omega, ?_, ?_⟩ <;>
    simp only [Int.ofNat_eq_natCast] <;> omega

/-- Membership in the sparse active-cell scan: exactly the active in-range
cells, with their stored colors. -/
theorem mem_getActiveCells (g : Grid) (p : Pixel) :
    p ∈ GetActiveCells g ↔
      ∃ a b : Nat, a < 1000 ∧ b < 1000 ∧
        (g (Int.ofNat a) (Int.ofNat b)).active = true ∧
        p = ⟨Int.ofNat a, Int.ofNat b, true, (g (Int.ofNat a) (Int.ofNat b)).color⟩ := by
  simp only [GetActiveCells, List.mem_flatMap, List.mem_filterMap, List.mem_range]
  constructor
  · rintro ⟨a, ha, b, hb, hsome⟩
    by_cases hact : (g (Int.ofNat a) (Int.ofNat b)).active = true
    · rw [if_pos hact] at hsome
      exact ⟨a, b, ha, hb, hact, (Option.some.inj hsome).symm⟩
    · rw [if_neg hact] at hsome
      cases hsome
  · rintro ⟨a, b, ha, hb, hact, rfl⟩
    exact ⟨a, ha, b, hb, by rw [if_pos hact]⟩

/-- Nodup survives `filterMap` when the partial function is injective on
the list's members. -/
theorem nodup_filterMap_on {α β : Type} (l : List α) (f : α → Option β)
    (hl : l.Nodup)
    (h : ∀ a ∈ l, ∀ a' ∈ l, ∀ b, f a = some b → f a' = some b → a = a') :
    (l.filterMap f).Nodup := by
  induction l with
  | nil => simp
  | cons a l ih =>
      have hnd := List.nodup_cons.mp hl
      rw [List.filterMap_cons]
      cases hfa : f a with
      | none =>
          exact ih hnd.2 fun x hx x' hx' b h1 h2 =>
            h x (List.mem_cons_of_mem a hx) x' (List.mem_cons_of_mem a hx') b h1 h2
      | some b =>
          refine List.nodup_cons.mpr ⟨?_, ih hnd.2 fun x hx x' hx' b h1 h2 =>
            h x (List.mem_cons_of_mem a hx) x' (List.mem_cons_of_mem a hx') b h1 h2⟩
          intro hbmem
          obtain ⟨a', ha', hfa'⟩ := List.mem_filterMap.mp hbmem
          have : a = a' :=
            h a (List.mem_cons_self a l) a' (List.mem_cons_of_mem a ha') b hfa hfa'
          exact hnd.1 (this ▸ ha')

/-- The string keys of the active-cell scan are pairwise distinct. -/
theorem nodup_activeKeys (g : Grid) :
    ((GetActiveCells g).map fun p => cellKey p.x p.y).Nodup := by
  unfold GetActiveCells
  rw [List.map_flatMap, List.nodup_flatMap]
  constructor
  · intro x hx
    have hx' : x < 1000 := List.mem_range.mp hx
    rw [List.map_filterMap]
    apply nodup_filterMap_on _ _ (List.nodup_range 1000)
    intro y hy y' hy' s h1 h2
    have hy1 : y < 1000 := List.mem_range.mp hy
    have hy2 : y' < 1000 := List.mem_range.mp hy'
    by_cases hact : (g (Int.ofNat x) (Int.ofNat y)).active = true
    · by_cases hact' : (g (Int.ofNat x) (Int.ofNat y')).active = true
      · rw [if_pos hact] at h1
        rw [if_pos hact'] at h2
        have hs1 : cellKey (Int.ofNat x) (Int.ofNat y) = s := by
          simpa using h1
        have hs2 : cellKey (Int.ofNat x) (Int.ofNat y') = s := by
          simpa using h2
        exact (cellKey_inj x y x y' hx' hy1 hx' hy2 (hs1.trans hs2.symm)).2
      · rw [if_neg hact'] at h2
        cases h2
    · rw [if_neg hact] at h1
      cases h1
  · refine List.Pairwise.imp_of_mem ?_ (List.pairwise_lt_range 1000)
    intro x x' hx hx' hlt s hs hs'
    have hxa : x < 1000 := List.mem_range.mp hx
    have hxb : x' < 1000 := List.mem_range.mp hx'
    obtain ⟨p, hp, rfl⟩ := List.mem_map.mp hs
    obtain ⟨q, hq, hkq⟩ := List.mem_map.mp hs'
    obtain ⟨y, hy, hpy⟩ := List.mem_filterMap.mp hp
    obtain ⟨y', hy', hqy⟩ := List.mem_filterMap.mp hq
    have hy1 : y < 1000 := List.mem_range.mp hy
    have hy2 : y' < 1000 := List.mem_range.mp hy'
    by_cases hact : (g (Int.ofNat x) (Int.ofNat y)).active = true
    · by_cases hact' : (g (Int.ofNat x') (Int.ofNat y')).active = true
      · rw [if_pos hact] at hpy
        rw [if_pos hact'] at hqy
        obtain rfl := Option.some.inj hpy
        obtain rfl := Option.some.inj hqy
        have hkq' : cellKey (Int.ofNat x') (Int.ofNat y') =
            cellKey (Int.ofNat x) (Int.ofNat y) := hkq
        have := (cellKey_inj x' y' x y hxb hy2 hxa hy1 hkq').1
        omega
      · rw [if_neg hact'] at hqy
        cases hqy
    · rw [if_neg hact] at hpy
      cases hpy

/-- Folding `mapSet` over cells with fresh, pairwise-distinct keys appends
their entries in order. -/
theorem foldl_mapSet (key v : ActiveCell → String) :
    ∀ (cells : List ActiveCell) (m : JsMap),
      (∀ c ∈ cells, ∀ kv ∈ m, kv.1 ≠ key c) →
      (cells.map key).Nodup →
      cells.foldl (fun acc cell => mapSet acc (key cell) (v cell)) m =
        m ++ cells.map fun c => (key c, v c) := by
  intro cells
  induction cells with
  | nil => simp
  | cons c cells ih =>
      intro m hfresh hnodup
      rw [List.map_cons] at hnodup
      have hnd := List.nodup_cons.mp hnodup
      have hset : mapSet m (key c) (v c) = m ++ [(key c, v c)] := by
        unfold mapSet
        rw [if_neg]
        intro hx
        obtain ⟨p, hp, he⟩ := List.any_eq_true.mp hx
        exact hfresh c (List.mem_cons_self c cells) p hp (of_decide_eq_true he)
      rw [List.foldl_cons, hset, ih (m ++ [(key c, v c)]) ?_ hnd.2]
      · simp
      · intro c' hc' kv hkv
        rcases List.mem_append.mp hkv with h | h
        · exact hfresh c' (List.mem_cons_of_mem c hc') kv h
        · have hkv' : kv = (key c, v c) := by simpa using h
          rw [hkv']
          intro he
          apply hnd.1
          rw [show key c = key c' from he]
          exact List.mem_map_of_mem key hc'

/-- Lookup in an association list with pairwise-distinct keys finds the
entry's value. -/
theorem mapGet_of_mem (k v : String) :
    ∀ m : JsMap, (m.map Prod.fst).Nodup → (k, v) ∈ m →
      mapGet m k = some v := by
  intro m
  induction m with
  | nil => intro _ hmem; cases hmem
  | cons kv m ih =>
      intro hnd hmem
      rw [List.map_cons] at hnd
      have hnd' := List.nodup_cons.mp hnd
      rcases List.mem_cons.mp hmem with h | h
      · subst h
        unfold mapGet
        rw [List.find?_cons_of_pos _ (by simp)]
        rfl
      · have hne : ¬(kv.1 = k) := by
          intro he
          apply hnd'.1
          rw [he]
          exact List.mem_map_of_mem Prod.fst h
        unfold mapGet
        rw [List.find?_cons_of_neg _ (by simpa using hne)]
        exact ih hnd'.2 h

/-- Lookup of a key that no entry carries yields `undefined`. -/
theorem mapGet_eq_none (m : JsMap) (k : String)
    (h : ∀ kv ∈ m, kv.1 ≠ k) : mapGet m k = none := by
  unfold mapGet
  rw [List.find?_eq_none.mpr fun x hx => by simpa using h x hx]
  rfl

set_option maxRecDepth 10000 in
/-- The replica built by the client's init handler is exactly the active
list's entries, keyed by coordinates and with falsy colors defaulted. -/
theorem applyInit_eq_map (g : Grid) :
    applyInit (mkInitMessage g) =
      (GetActiveCells g).map fun p =>
        (cellKey p.x p.y, if p.color = "" then "#FFFFFF" else p.color) := by
  have hkeys : (((GetActiveCells g).map fun p =>
      (⟨p.x, p.y, p.color⟩ : ActiveCell)).map fun c => cellKey c.x c.y).Nodup := by
    rw [List.map_map]
    exact nodup_activeKeys g
  have h := foldl_mapSet (fun c => cellKey c.x c.y)
    (fun c => if c.color = "" then "#FFFFFF" else c.color)
    ((GetActiveCells g).map fun p => ⟨p.x, p.y, p.color⟩) []
    (fun _ _ kv hkv => absurd hkv (List.not_mem_nil kv)) hkeys
  calc applyInit (mkInitMessage g)
      = ((GetActiveCells g).map fun p => (⟨p.x, p.y, p.color⟩ : ActiveCell)).foldl
          (fun acc cell => mapSet acc (cellKey cell.x cell.y)
            (if cell.color = "" then "#FFFFFF" else cell.color)) [] := rfl
    _ = [] ++ ((GetActiveCells g).map fun p => (⟨p.x, p.y, p.color⟩ : ActiveCell)).map
          (fun c => (cellKey c.x c.y, if c.color = "" then "#FFFFFF" else c.color)) := h
    _ = (GetActiveCells g).map fun p =>
          (cellKey p.x p.y, if p.color = "" then "#FFFFFF" else p.color) := by
        rw [List.nil_append, List.map_map]
        rfl

set_option maxRecDepth 10000 in
/-- What the client's init handler stores at each in-range coordinate's
key: the falsy-defaulted color of an active cell, nothing for an inactive
cell. -/
theorem mapGet_applyInit (g : Grid) (x y : Int) (h : InBounds x y) :
    mapGet (applyInit (mkInitMessage g)) (cellKey x y) =
      if (g x y).active = true then
        some (if (g x y).color = "" then "#FFFFFF" else (g x y).color)
      else none := by
  obtain ⟨a, b, ha, hb, rfl, rfl⟩ := inBounds_destruct x y h
  rw [applyInit_eq_map]
  by_cases hact : (g (Int.ofNat a) (Int.ofNat b)).active = true
  · rw [if_pos hact]
    apply mapGet_of_mem
    · have : ((GetActiveCells g).map fun p =>
          ((cellKey p.x p.y, if p.color = "" then "#FFFFFF" else p.color) :
            String × String)).map Prod.fst =
          (GetActiveCells g).map fun p => cellKey p.x p.y := by
        rw [List.map_map]
        rfl
      rw [this]
      exact nodup_activeKeys g
    · have hp : (⟨Int.ofNat a, Int.ofNat b, true,
          (g (Int.ofNat a) (Int.ofNat b)).color⟩ : Pixel) ∈ GetActiveCells g :=
        (mem_getActiveCells g _).mpr ⟨a, b, ha, hb, hact, rfl⟩
      exact List.mem_map_of_mem _ hp
  · rw [if_neg hact]
    apply mapGet_eq_none
    intro kv hkv
    obtain ⟨p, hp, rfl⟩ := List.mem_map.mp hkv
    obtain ⟨a', b', ha', hb', hact', rfl⟩ := (mem_getActiveCells g p).mp hp
    intro he
    have hk : cellKey (Int.ofNat a') (Int.ofNat b') =
        cellKey (Int.ofNat a) (Int.ofNat b) := he
    obtain ⟨rfl, rfl⟩ : a' = a ∧ b' = b := cellKey_inj a' b' a b ha' hb' ha hb hk
    exact hact hact'

/-- Counterexample to claim C4 as stated: on a grid whose active cell
`(0,0)` stores the empty-string color, the client's init handler replaces
the falsy color by white (`cell.color || '#FFFFFF'`), so the replica's
color differs from the server's stored color for that active cell. -/
theorem c4_counterexample :
    (SetCell initGrid 0 0 true "" 0 0).active = true ∧
    (SetCell initGrid 0 0 true "" 0 0).color = "" ∧
    mapGet (applyInit (mkInitMessage (SetCell initGrid 0 0 true "")))
      (cellKey 0 0) = some "#FFFFFF" ∧
    some "#FFFFFF" ≠ some ((SetCell initGrid 0 0 true "" 0 0).color) := by
  have hcell : SetCell initGrid 0 0 true "" 0 0 = ⟨true, ""⟩ := by decide
  refine ⟨by decide, by decide, ?_, by decide⟩
  rw [mapGet_applyInit (SetCell initGrid 0 0 true "") 0 0 (by decide), hcell]
  rfl

/-- Claim C4, amended: for every grid state in which no active cell stores
the empty-string color (true of every state the server's own operations
produce from validated input), the replica a freshly connected client
builds from the snapshot lists exactly the server's active cells with
their stored colors, each exactly once, and its lookup answers agree with
the server's grid at every in-range coordinate. -/
theorem c4_snapshot_roundtrip (g : Grid)
    (h : ∀ x y : Int, InBounds x y → (g x y).active = true → (g x y).color ≠ "") :
    applyInit (mkInitMessage g) =
      (GetActiveCells g).map (fun p => (cellKey p.x p.y, p.color)) ∧
    ∀ x y : Int, InBounds x y →
      mapGet (applyInit (mkInitMessage g)) (cellKey x y) =
        if (g x y).active = true then some (g x y).color else none := by
  constructor
  · rw [applyInit_eq_map]
    apply List.map_congr_left
    intro p hp
    obtain ⟨a, b, ha, hb, hact, rfl⟩ := (mem_getActiveCells g p).mp hp
    have hne := h (Int.ofNat a) (Int.ofNat b) (inBounds_ofNat a b ha hb) hact
    simp only [Int.ofNat_eq_natCast] at hne
    simp [hne]
  · intro x y hxy
    rw [mapGet_applyInit g x y hxy]
    by_cases hact : (g x y).active = true
    · simp [hact, h x y hxy hact]
    · simp [hact]

/-- Witness for the amended claim C4 on the all-inactive initial grid. -/
theorem c4_snapshot_roundtrip_witness :
    (∀ x y : Int, InBounds x y →
      (initGrid x y).active = true → (initGrid x y).color ≠ "") ∧
    (applyInit (mkInitMessage initGrid) =
      (GetActiveCells initGrid).map (fun p => (cellKey p.x p.y, p.color)) ∧
    ∀ x y : Int, InBounds x y →
      mapGet (applyInit (mkInitMessage initGrid)) (cellKey x y) =
        if (initGrid x y).active = true then some ((initGrid x y).color)
        else none) :=
  have hyp : ∀ x y : Int, InBounds x y →
      (initGrid x y).active = true → (initGrid x y).color ≠ "" :=
    fun _ _ _ hact => absurd hact (by simp [initGrid])
  ⟨hyp, c4_snapshot_roundtrip initGrid hyp⟩

end MillionGrids

